import Mathlib

/-!
Verification of the test-parameter decision code of the Kafka performance
testing framework (`cdk/lambda/test-parameters.py`).

The Python module is embedded shallowly:

* Python dicts `str -> int` (the test index, and the axis table
  `test_specification["parameters"]` reduced to option-list lengths) become
  association lists `List (String × Nat)` with in-place update semantics.
* The process-global random generator (`random.randint(0,100000)`) becomes an
  explicit counter state `g : Nat`; a draw returns the current counter and
  advances it.  This abstracts the concrete random values while keeping the
  order and number of draws of the source.
* `OverflowError` / `KeyError` become an explicit error type threaded through
  `Except`.
* Python floats in the skip-condition evaluator become `ℚ`; every computation
  the claims touch (`50 / 100`) is exact in binary floating point, so the
  rational model agrees with the float semantics on them.
* The top-level handler `increment_index_and_update_parameters` is embedded at
  the index level: it returns the `(index, test_id, series_id)` triple that the
  Python code passes on to `update_parameters`, or the terminal outcome that
  models the payload `{"test_specification": ...}` with no `current_test`.
  The arithmetic of `update_parameters` (lines 251-322) is embedded separately
  over a record of the concrete per-axis values it extracts.
-/

namespace TestParams

/-- A Python dict from strings to naturals, in insertion order.  Used both for
the test index (`axis name ↦ position`) and for the axis table of the test
specification reduced to lengths (`axis name ↦ len(options)`). -/
abbrev Index := List (String × Nat)

/-- Dict lookup: `d[key]`, `none` when the key raises `KeyError`. -/
def lookupIdx : Index → String → Option Nat
  | [], _ => none
  | (k, v) :: rest, key => if k = key then some v else lookupIdx rest key

/-- Dict functional update `{**d, key: v}` (equally `d = d.copy(); d[key] = v`):
replace in place when the key exists, append otherwise. -/
def idxSet : Index → String → Nat → Index
  | [], key, v => [(key, v)]
  | (k, w) :: rest, key, v =>
    if k = key then (key, v) :: rest else (k, w) :: idxSet rest key v

/-- The two exception classes the module distinguishes: `OverflowError`
(exhaustion, caught by the handler) and `KeyError` (a structural failure that
propagates). -/
inductive PyErr
  | overflow
  | keyError
deriving DecidableEq, Repr

-- Decidable equality of exception-carrying results, to evaluate concrete runs.
deriving instance DecidableEq for Except

/-- The distinguished throughput axis name used by the counter. -/
def throughputAxis : String := "cluster_throughput_mb_per_sec"

/-- Embedding of `increment_test_index(index, event, pos)` (source lines
180-222).  The cursor `pos` over the axis list is represented structurally:
a call at cursor `pos` is a call on `axes.drop pos`, and the out-of-range
check `not (0 <= pos < len(parameters))` becomes the empty-list case.
Arguments: remaining axes (name, options length); the event's
`current_test.index` (the function reads each digit from the event, not from
its threaded `index` argument); the event's
`current_test.parameters.throughput_series_id`; the threaded `index`; the
random-generator state.  Returns (new index, series id, generator state). -/
def increment_test_index :
    List (String × Nat) → Index → Nat → Index → Nat → Except PyErr (Index × Nat × Nat)
  | [], _, _, _, _ => .error .overflow
  | (name, optLen) :: rest, evIndex, curSeries, index, g =>
    match lookupIdx evIndex name with
    | none => .error .keyError
    | some value =>
      if value + 1 < optLen then
        if name = throughputAxis then
          .ok (idxSet index name (value + 1), curSeries, g)
        else
          .ok (idxSet index name (value + 1), g, g + 1)
      else
        if name = throughputAxis then
          match increment_test_index rest evIndex curSeries (idxSet index name 0) g with
          | .ok (idx', _, g') => .ok (idx', g', g' + 1)
          | .error e => .error e
        else
          increment_test_index rest evIndex curSeries (idxSet index name 0) g

/-- Reference counter for the refinement claim: identical to
`increment_test_index` except that each digit is read from the threaded
`index` argument, as the specified algorithm (§4.1 of the spec) reads
`index[axis]`.  -/
def increment_test_index_from_spec :
    List (String × Nat) → Nat → Index → Nat → Except PyErr (Index × Nat × Nat)
  | [], _, _, _ => .error .overflow
  | (name, optLen) :: rest, curSeries, index, g =>
    match lookupIdx index name with
    | none => .error .keyError
    | some value =>
      if value + 1 < optLen then
        if name = throughputAxis then
          .ok (idxSet index name (value + 1), curSeries, g)
        else
          .ok (idxSet index name (value + 1), g, g + 1)
      else
        if name = throughputAxis then
          match increment_test_index_from_spec rest curSeries (idxSet index name 0) g with
          | .ok (idx', _, g') => .ok (idx', g', g' + 1)
          | .error e => .error e
        else
          increment_test_index_from_spec rest curSeries (idxSet index name 0) g

/-- Embedding of `skip_remaining_throughput(index, event)` (source lines
341-369): read the consumer-group position (default 0 when absent), and when a
further consumer-group option exists return a copy of the index with the
throughput axis reset to 0 and the consumer-group axis advanced, together with
a fresh series id; otherwise raise `OverflowError`.  `axes` is the axis table
of the specification (lengths of the option lists). -/
def skip_remaining_throughput (axes : List (String × Nat)) (index : Index) (g : Nat) :
    Except PyErr (Index × Nat × Nat) :=
  match lookupIdx axes "consumer_groups" with
  | none => .error .keyError
  | some cgLen =>
    let cg := (lookupIdx index "consumer_groups").getD 0
    if cg + 1 < cgLen then
      .ok (idxSet (idxSet index throughputAxis 0) "consumer_groups" (cg + 1), g, g + 1)
    else
      .error .overflow

/-- The skip-condition expression tree (`test_specification`'s
`skip_remaining_throughput` value): numeric literals, the named metric
`sent_div_requested_mb_per_sec`, and the two binary comparisons
`greater-than` / `less-than`. -/
inductive SkipCond
  | lit (q : ℚ)
  | sentDivRequested
  | greaterThan (a b : SkipCond)
  | lessThan (a b : SkipCond)
deriving DecidableEq, Repr

/-- Embedding of `evaluate_skip_condition(condition, event)` (source lines
115-177) over the data it reads from the event: the `mb_per_sec` summary value
of each producer result (a record with the value absent or falsy contributes
`0`, exactly as `float(mb_value) if mb_value else 0` does) and the current
test's `cluster_throughput_mb_per_sec`.  Python booleans returned by the
comparisons are modelled as `1` / `0`, matching `bool`'s numeric behaviour. -/
def evaluate_skip_condition : SkipCond → List ℚ → ℚ → ℚ
  | .lit q, _, _ => q
  | .sentDivRequested, feedback, reqThr =>
    let total := feedback.sum
    if total = 0 then 0
    else
      let requested := if reqThr = 0 then 1 else reqThr
      total / requested
  | .greaterThan a b, fb, req =>
    if evaluate_skip_condition a fb req > evaluate_skip_condition b fb req then 1 else 0
  | .lessThan a b, fb, req =>
    if evaluate_skip_condition a fb req < evaluate_skip_condition b fb req then 1 else 0

/-- The `current_test` member of the event, reduced to the fields the decision
function reads: the index, `parameters.test_id`,
`parameters.throughput_series_id`, and `parameters.cluster_throughput_mb_per_sec`
(the requested throughput the skip evaluator divides by). -/
structure CurrentTest where
  index : Index
  testId : Nat
  seriesId : Nat
  reqThr : ℚ
deriving DecidableEq, Repr

/-- The event payload, reduced to the fields the decision function reads:
the axis table of `test_specification["parameters"]` (name, option count),
the optional `skip_remaining_throughput` condition of the specification, the
optional `current_test`, and the optional `producer_result` feedback. -/
structure SweepEvent where
  axes : List (String × Nat)
  skipCond : Option SkipCond
  current : Option CurrentTest
  producerResult : Option (List ℚ)
deriving DecidableEq, Repr

/-- Outcome of one decision call at the index level.  `terminal` models the
payload `{"test_specification": test_specification}` with no `current_test`;
`next` carries the data the Python code passes to `update_parameters`. -/
inductive Outcome
  | terminal
  | next (index : Index) (testId seriesId : Nat)
deriving DecidableEq, Repr

/-- The `try ... except OverflowError` of the handler (source lines 43-93):
a successful advance is packaged as the next test, exhaustion is converted to
the terminal payload, any other error propagates. -/
def wrapAdvance (testId g : Nat) : Except PyErr (Index × Nat × Nat) → Except PyErr (Outcome × Nat)
  | .ok (idx, sid, g') => .ok (.next idx testId sid, g')
  | .error .overflow => .ok (.terminal, g)
  | .error e => .error e

/-- Index-level embedding of the handler
`increment_index_and_update_parameters(event, context)` (source lines 33-107).
With a current test it routes through the skip evaluator only when both a skip
condition and producer feedback are present, advancing by
`skip_remaining_throughput` when the condition is truthy and by
`increment_test_index` from cursor position 0 otherwise; without a current test
it starts the sweep with the all-zero index and freshly drawn test and series
ids. -/
def increment_index_and_update_parameters (ev : SweepEvent) (g : Nat) :
    Except PyErr (Outcome × Nat) :=
  match ev.current with
  | some cur =>
    match ev.skipCond, ev.producerResult with
    | some cond, some fb =>
      if evaluate_skip_condition cond fb cur.reqThr ≠ 0 then
        wrapAdvance cur.testId g (skip_remaining_throughput ev.axes cur.index g)
      else
        wrapAdvance cur.testId g
          (increment_test_index ev.axes cur.index cur.seriesId cur.index g)
    | _, _ =>
      wrapAdvance cur.testId g
        (increment_test_index ev.axes cur.index cur.seriesId cur.index g)
  | none =>
    .ok (.next (ev.axes.map (fun a => (a.1, 0))) g (g + 1), g + 2)

/-- The orchestrated sweep without skip feedback: result of the `(k+1)`-th call
of the decision function, threading the returned index, test id, series id and
generator state back in, starting from an event with no `current_test`. -/
def sweepCall (axes : List (String × Nat)) : Nat → Except PyErr (Outcome × Nat)
  | 0 => increment_index_and_update_parameters ⟨axes, none, none, none⟩ 0
  | k + 1 =>
    match sweepCall axes k with
    | .ok (.next idx tid sid, g) =>
      increment_index_and_update_parameters ⟨axes, none, some ⟨idx, tid, sid, 0⟩, none⟩ g
    | r => r

/-- The index whose digit on each axis is the mixed-radix digit of `k`, the
first-declared axis being least significant. -/
def indexOfNat : List (String × Nat) → Nat → Index
  | [], _ => []
  | (name, r) :: rest, k => (name, k % r) :: indexOfNat rest (k / r)

/-- Mixed-radix digits of `k` for the given radix list (least significant
first). -/
def natToDigits : List Nat → Nat → List Nat
  | [], _ => []
  | r :: rs, k => k % r :: natToDigits rs (k / r)

/-- Value of a mixed-radix digit list (least significant first). -/
def radixVal : List Nat → List Nat → Nat
  | r :: rs, d :: ds => d + r * radixVal rs ds
  | _, _ => 0

/-- Pair an axis list with a digit list into an index. -/
def toAssoc : List (String × Nat) → List Nat → Index
  | p :: axes, d :: ds => (p.1, d) :: toAssoc axes ds
  | _, _ => []

/-- Digit-level model of `increment_test_index`: the same branch structure
acting on the digit list directly.  Proved equal to the association-list
function under the dict invariants; the mixed-radix facts are established on
this model. -/
def incModel : List (String × Nat) → List Nat → Nat → Nat → Except PyErr (List Nat × Nat × Nat)
  | [], _, _, _ => .error .overflow
  | _ :: _, [], _, _ => .error .keyError
  | (name, optLen) :: rest, d :: ds, curSeries, g =>
    if d + 1 < optLen then
      if name = throughputAxis then
        .ok ((d + 1) :: ds, curSeries, g)
      else
        .ok ((d + 1) :: ds, g, g + 1)
    else
      match incModel rest ds curSeries g with
      | .ok (ds', s', g') =>
        if name = throughputAxis then
          .ok (0 :: ds', g', g' + 1)
        else
          .ok (0 :: ds', s', g')
      | .error e => .error e

/-- The axis whose digit an advance increments: the first axis whose digit has
not saturated. -/
def firstNonSat : List (String × Nat) → List Nat → Option String
  | (name, r) :: rest, d :: ds => if d + 1 < r then some name else firstNonSat rest ds
  | _, _ => none

/-- Character class `[a-zA-Z0-9._-]` of the topic-name sanitization. -/
def isAllowedChar (c : Char) : Bool :=
  (decide ('a' ≤ c) && decide (c ≤ 'z')) ||
  (decide ('A' ≤ c) && decide (c ≤ 'Z')) ||
  (decide ('0' ≤ c) && decide (c ≤ '9')) ||
  c == '.' || c == '_' || c == '-'

/-- Embedding of `re.sub(r'[^a-zA-Z0-9._-]', '-', s)`: every character outside
the class is replaced by `-`. -/
def sanitizeName (s : String) : String :=
  String.mk (s.data.map (fun c => if isAllowedChar c then c else '-'))

/-- The concrete per-axis values `update_parameters` extracts from the
specification (lines 233-257 of the source: the value of each axis at its
index position, the `consumer_groups` descriptor unwrapped to its two fields,
and the client-properties descriptor unwrapped to its two members, carried as
opaque strings). -/
structure ResolvedNums where
  num_producers : Int
  record_size_byte : Int
  cluster_throughput_mb_per_sec : Int
  duration_sec : Int
  num_partitions : Int
  replication_factor : Int
  cg_num_groups : Int
  cg_size : Int
  producer_props : String
  consumer_props : String
deriving DecidableEq, Repr

/-- The resolved parameter dictionary built by `update_parameters` (source
lines 294-322).  The identifiers are carried in their textual rendering, as the
dynamically typed dict values appear inside the f-strings; the nested
`client_props` member duplicates the two props fields and is not repeated. -/
structure Params where
  num_jobs : Int
  replication_factor : Int
  topic_name : String
  depletion_topic_name : String
  record_size_byte : Int
  records_per_sec : Int
  num_partitions : Int
  duration_sec : Int
  producer_throughput : Int
  num_records_producer : Int
  num_records_consumer : Int
  test_id : String
  throughput_series_id : String
  num_producers : Int
  num_consumer_groups : Int
  size_consumer_group : Int
  producer_props : String
  consumer_props : String
  cluster_throughput_mb_per_sec : Int
deriving DecidableEq, Repr

/-- Embedding of the arithmetic and naming of `update_parameters` (source
lines 251-322) over the extracted concrete values.  Python `//` is floor
division, `Int.fdiv`. -/
def update_parameters (spec : ResolvedNums) (test_id throughput_series_id : String) : Params :=
  let num_jobs := spec.num_producers + spec.cg_num_groups * spec.cg_size
  let record_size_byte := spec.record_size_byte
  let cluster_throughput := spec.cluster_throughput_mb_per_sec
  let rates : Int × Int × Int × Int :=
    if cluster_throughput > 0 then
      let producer_throughput_byte := (cluster_throughput * 1024 * 1024).fdiv spec.num_producers
      let consumer_throughput_byte :=
        if spec.cg_size > 0 then (cluster_throughput * 1024 * 1024).fdiv spec.cg_size else 0
      (producer_throughput_byte, consumer_throughput_byte,
        (producer_throughput_byte * spec.duration_sec).fdiv record_size_byte,
        (consumer_throughput_byte * spec.duration_sec).fdiv record_size_byte)
    else
      (-1, -1, 2147483647, 2147483647)
  let producer_throughput_byte := rates.1
  let num_records_producer := rates.2.2.1
  let num_records_consumer := rates.2.2.2
  let topic_name := sanitizeName
    ("test-" ++ test_id ++ "-series-" ++ throughput_series_id ++ "-" ++
      "t" ++ toString cluster_throughput ++
      "-p" ++ toString spec.num_producers ++
      "-part" ++ toString spec.num_partitions ++
      "-s" ++ toString record_size_byte ++
      "-r" ++ toString spec.replication_factor ++
      "-d" ++ toString spec.duration_sec ++
      "-cg" ++ toString spec.cg_num_groups ++
      "-cs" ++ toString spec.cg_size)
  let depletion_topic_name := sanitizeName
    ("test-" ++ test_id ++ "-series-" ++ throughput_series_id ++ "-depl")
  { num_jobs := num_jobs
    replication_factor := spec.replication_factor
    topic_name := topic_name
    depletion_topic_name := depletion_topic_name
    record_size_byte := record_size_byte
    records_per_sec := max 1 (producer_throughput_byte.fdiv record_size_byte)
    num_partitions := spec.num_partitions
    duration_sec := spec.duration_sec
    producer_throughput := producer_throughput_byte
    num_records_producer := num_records_producer
    num_records_consumer := num_records_consumer
    test_id := test_id
    throughput_series_id := throughput_series_id
    num_producers := spec.num_producers
    num_consumer_groups := spec.cg_num_groups
    size_consumer_group := spec.cg_size
    producer_props := spec.producer_props
    consumer_props := spec.consumer_props
    cluster_throughput_mb_per_sec := cluster_throughput }

/-- The event fields `update_parameters_for_depletion` reads: the depletion
configuration's `approximate_timeout_hours`, and the current test's index and
resolved parameters. -/
structure DeplEvent where
  approximate_timeout_hours : Int
  index : Index
  params : Params
deriving DecidableEq, Repr

/-- Embedding of `update_parameters_for_depletion(event, context)` (source
lines 372-409): copy the current parameters and overwrite the depletion
fields; the test index is returned unchanged.  Note the recomputed
`depletion_topic_name` is the raw f-string, with no sanitization applied. -/
def update_parameters_for_depletion (ev : DeplEvent) : Index × Params :=
  let p := ev.params
  (ev.index,
    { p with
      duration_sec := ev.approximate_timeout_hours * 60 * 60
      records_per_sec := -1
      num_records_producer := 2147483647
      num_records_consumer := 0
      num_jobs := p.num_producers
      test_id := p.test_id
      throughput_series_id := p.throughput_series_id
      depletion_topic_name :=
        "test-" ++ p.test_id ++ "-series-" ++ p.throughput_series_id ++ "-depl" })

/-- Concrete depletion event exhibiting an unsanitized recomputed name: its
`test_id` rendering contains a space. -/
def deplEventWithBadId : DeplEvent :=
  { approximate_timeout_hours := 2
    index := [("cluster_throughput_mb_per_sec", 1), ("consumer_groups", 0)]
    params :=
      { num_jobs := 5
        replication_factor := 3
        topic_name := "test-a b-series-7-t16-p4"
        depletion_topic_name := "test-a-b-series-7-depl"
        record_size_byte := 1024
        records_per_sec := 16
        num_partitions := 6
        duration_sec := 300
        producer_throughput := 4194304
        num_records_producer := 1228800
        num_records_consumer := 2457600
        test_id := "a b"
        throughput_series_id := "7"
        num_producers := 5
        num_consumer_groups := 0
        size_consumer_group := 0
        producer_props := "acks=all"
        consumer_props := ""
        cluster_throughput_mb_per_sec := 16 } }

/-! ### Association-list lemmas (dict semantics) -/

theorem lookupIdx_cons_self (n : String) (v : Nat) (t : Index) :
    lookupIdx ((n, v) :: t) n = some v := by
  simp [lookupIdx]

theorem lookupIdx_cons_ne (k n : String) (v : Nat) (t : Index) (h : k ≠ n) :
    lookupIdx ((k, v) :: t) n = lookupIdx t n := by
  simp [lookupIdx, h]

theorem lookupIdx_append_of_not_mem (p q : Index) (n : String)
    (h : n ∉ p.map Prod.fst) : lookupIdx (p ++ q) n = lookupIdx q n := by
  induction p with
  | nil => rfl
  | cons a t ih =>
    simp only [List.map_cons, List.mem_cons] at h
    push_neg at h
    obtain ⟨h1, h2⟩ := h
    simp [lookupIdx, List.cons_append, Ne.symm h1, ih h2]

theorem idxSet_cons_self (n : String) (w v : Nat) (t : Index) :
    idxSet ((n, w) :: t) n v = (n, v) :: t := by
  simp [idxSet]

theorem idxSet_append_of_not_mem (p q : Index) (n : String) (v : Nat)
    (h : n ∉ p.map Prod.fst) : idxSet (p ++ q) n v = p ++ idxSet q n v := by
  induction p with
  | nil => rfl
  | cons a t ih =>
    simp only [List.map_cons, List.mem_cons] at h
    push_neg at h
    obtain ⟨h1, h2⟩ := h
    simp [idxSet, List.cons_append, Ne.symm h1, ih h2]

theorem lookupIdx_idxSet_self (m : Index) (n : String) (v : Nat) :
    lookupIdx (idxSet m n v) n = some v := by
  induction m with
  | nil => simp [idxSet, lookupIdx]
  | cons a t ih =>
    obtain ⟨k, w⟩ := a
    by_cases h : k = n
    · subst h; simp [idxSet, lookupIdx]
    · simp [idxSet, lookupIdx, h, ih]

theorem lookupIdx_idxSet_ne (m : Index) (n n' : String) (v : Nat) (h : n ≠ n') :
    lookupIdx (idxSet m n v) n' = lookupIdx m n' := by
  induction m with
  | nil => simp [idxSet, lookupIdx, h]
  | cons a t ih =>
    obtain ⟨k, w⟩ := a
    by_cases hk : k = n
    · subst hk; simp [idxSet, lookupIdx, h]
    · simp [idxSet, lookupIdx, hk, ih]

theorem lookupIdx_of_mem_nodup (m : Index) (p : String × Nat)
    (hnd : (m.map Prod.fst).Nodup) (hmem : p ∈ m) : lookupIdx m p.1 = some p.2 := by
  induction m with
  | nil => cases hmem
  | cons a t ih =>
    simp only [List.map_cons, List.nodup_cons] at hnd
    rcases List.mem_cons.1 hmem with h | h
    · subst h; simp [lookupIdx]
    · have hne : a.1 ≠ p.1 := by
        intro he
        exact hnd.1 (he ▸ List.mem_map_of_mem Prod.fst h)
      obtain ⟨k, w⟩ := a
      simp only at hne
      simp [lookupIdx, hne, ih hnd.2 h]

/-! ### toAssoc and mixed-radix digit lemmas -/

theorem toAssoc_cons (p : String × Nat) (axes : List (String × Nat)) (d : Nat) (ds : List Nat) :
    toAssoc (p :: axes) (d :: ds) = (p.1, d) :: toAssoc axes ds := rfl

theorem toAssoc_inj (axes : List (String × Nat)) (ds ds' : List Nat)
    (h1 : ds.length = axes.length) (h2 : ds'.length = axes.length)
    (h : toAssoc axes ds = toAssoc axes ds') : ds = ds' := by
  induction axes generalizing ds ds' with
  | nil =>
    cases ds with
    | nil => cases ds' with
      | nil => rfl
      | cons a t => simp at h2
    | cons a t => simp at h1
  | cons p rest ih =>
    cases ds with
    | nil => simp at h1
    | cons d dt =>
      cases ds' with
      | nil => simp at h2
      | cons d' dt' =>
        simp only [toAssoc, List.cons.injEq, Prod.mk.injEq] at h
        simp only [List.length_cons, Nat.succ.injEq] at h1 h2
        rw [h.1.2, ih dt dt' h1 h2 h.2]

theorem indexOfNat_eq_toAssoc (axes : List (String × Nat)) (k : Nat) :
    indexOfNat axes k = toAssoc axes (natToDigits (axes.map Prod.snd) k) := by
  induction axes generalizing k with
  | nil => rfl
  | cons p rest ih =>
    obtain ⟨name, r⟩ := p
    simp [indexOfNat, natToDigits, toAssoc, ih]

theorem indexOfNat_zero (axes : List (String × Nat)) :
    indexOfNat axes 0 = axes.map (fun a => (a.1, 0)) := by
  induction axes with
  | nil => rfl
  | cons p rest ih =>
    obtain ⟨name, r⟩ := p
    simp [indexOfNat, ih]

theorem natToDigits_length (rads : List Nat) (k : Nat) :
    (natToDigits rads k).length = rads.length := by
  induction rads generalizing k with
  | nil => rfl
  | cons r rs ih => simp [natToDigits, ih]

theorem natToDigits_bounded (rads : List Nat) (k : Nat) (hpos : ∀ r ∈ rads, 0 < r) :
    List.Forall₂ (· < ·) (natToDigits rads k) rads := by
  induction rads generalizing k with
  | nil => exact List.Forall₂.nil
  | cons r rs ih =>
    refine List.Forall₂.cons ?_ (ih _ (fun x hx => hpos x (List.mem_cons_of_mem r hx)))
    exact Nat.mod_lt _ (hpos r (List.mem_cons_self r rs))

theorem radixVal_lt (rads : List Nat) (ds : List Nat)
    (hb : List.Forall₂ (· < ·) ds rads) : radixVal rads ds < rads.prod := by
  induction hb with
  | nil => simp [radixVal]
  | cons hd htail ih =>
    rename_i d r ds' rs'
    simp only [radixVal, List.prod_cons]
    have h2 : r * (radixVal rs' ds' + 1) ≤ r * rs'.prod :=
      Nat.mul_le_mul_left r (Nat.succ_le_of_lt ih)
    have h3 : r * (radixVal rs' ds' + 1) = r * radixVal rs' ds' + r := by ring
    omega

theorem natToDigits_val (rads : List Nat) (k : Nat) (hk : k < rads.prod) :
    radixVal rads (natToDigits rads k) = k := by
  induction rads generalizing k with
  | nil => simp at hk; simp [natToDigits, radixVal, hk]
  | cons r rs ih =>
    simp only [List.prod_cons] at hk
    have hr : 0 < r := by
      rcases Nat.eq_zero_or_pos r with h | h
      · subst h; simp at hk
      · exact h
    have hdiv : k / r < rs.prod := by
      rw [Nat.div_lt_iff_lt_mul hr]
      calc k < r * rs.prod := hk
      _ = rs.prod * r := Nat.mul_comm _ _
    simp only [natToDigits, radixVal, ih _ hdiv]
    exact Nat.mod_add_div k r

theorem radixVal_inj (rads : List Nat) (ds ds' : List Nat)
    (hb : List.Forall₂ (· < ·) ds rads) (hb' : List.Forall₂ (· < ·) ds' rads)
    (h : radixVal rads ds = radixVal rads ds') : ds = ds' := by
  induction rads generalizing ds ds' with
  | nil =>
    cases hb; cases hb'; rfl
  | cons r rs ih =>
    cases hb with
    | cons hd htail =>
      cases hb' with
      | cons hd' htail' =>
        rename_i d dt d' dt'
        simp only [radixVal] at h
        have hmod : d = d' := by
          have h1 : (d + r * radixVal rs dt) % r = d := by
            rw [Nat.add_mul_mod_self_left, Nat.mod_eq_of_lt hd]
          have h2 : (d' + r * radixVal rs dt') % r = d' := by
            rw [Nat.add_mul_mod_self_left, Nat.mod_eq_of_lt hd']
          rw [← h1, ← h2, h]
        have hdiv : radixVal rs dt = radixVal rs dt' := by
          have h1 : (d + r * radixVal rs dt) / r = radixVal rs dt := by
            rw [Nat.add_mul_div_left _ _ (Nat.lt_of_le_of_lt (Nat.zero_le d) hd),
              Nat.div_eq_of_lt hd, Nat.zero_add]
          have h2 : (d' + r * radixVal rs dt') / r = radixVal rs dt' := by
            rw [Nat.add_mul_div_left _ _ (Nat.lt_of_le_of_lt (Nat.zero_le d') hd'),
              Nat.div_eq_of_lt hd', Nat.zero_add]
          rw [← h1, ← h2, h]
        rw [hmod, ih dt dt' htail htail' hdiv]

/-! ### Lookups in a canonically shaped index -/

theorem toAssoc_lookup_forall₂ :
    ∀ (axes : List (String × Nat)) (ds : List Nat) (pre : Index),
    (axes.map Prod.fst).Nodup → ds.length = axes.length →
    (∀ p ∈ axes, p.1 ∉ pre.map Prod.fst) →
    List.Forall₂ (fun (p : String × Nat) d => lookupIdx (pre ++ toAssoc axes ds) p.1 = some d)
      axes ds := by
  intro axes
  induction axes with
  | nil =>
    intro ds pre _ hlen _
    cases ds with
    | nil => exact List.Forall₂.nil
    | cons d dt => simp at hlen
  | cons p rest ih =>
    obtain ⟨name, r⟩ := p
    intro ds pre hnd hlen hpre
    cases ds with
    | nil => simp at hlen
    | cons d dt =>
      simp only [List.map_cons, List.nodup_cons] at hnd
      simp only [List.length_cons, Nat.succ.injEq] at hlen
      have hnamepre : name ∉ pre.map Prod.fst := hpre (name, r) (List.mem_cons_self _ _)
      refine List.Forall₂.cons ?_ ?_
      · rw [toAssoc_cons, lookupIdx_append_of_not_mem _ _ _ hnamepre]
        exact lookupIdx_cons_self _ _ _
      · have hpre' : ∀ q ∈ rest, q.1 ∉ (pre ++ [(name, d)]).map Prod.fst := by
          intro q hq
          simp only [List.map_append, List.map_cons, List.map_nil, List.mem_append,
            List.mem_singleton]
          push_neg
          refine ⟨hpre q (List.mem_cons_of_mem _ hq), ?_⟩
          intro he
          exact hnd.1 (he ▸ List.mem_map_of_mem Prod.fst hq)
        have := ih dt (pre ++ [(name, d)]) hnd.2 hlen hpre'
        simpa [toAssoc_cons, List.append_assoc] using this

/-! ### The counter computes on digits: equivalence with the digit model -/

theorem increment_eq_incModel :
    ∀ (suffix : List (String × Nat)) (ds : List Nat) (pre evIndex : Index) (curSeries g : Nat),
    List.Forall₂ (fun (p : String × Nat) d => lookupIdx evIndex p.1 = some d) suffix ds →
    (suffix.map Prod.fst).Nodup →
    (∀ p ∈ suffix, p.1 ∉ pre.map Prod.fst) →
    increment_test_index suffix evIndex curSeries (pre ++ toAssoc suffix ds) g =
      match incModel suffix ds curSeries g with
      | .ok x => .ok (pre ++ toAssoc suffix x.1, x.2)
      | .error e => .error e := by
  intro suffix
  induction suffix with
  | nil =>
    intro ds pre evIndex curSeries g hf _ _
    cases hf
    rfl
  | cons p rest ih =>
    obtain ⟨name, r⟩ := p
    intro ds pre evIndex curSeries g hf hnd hpre
    cases hf with
    | cons hlook htail =>
      rename_i d dt
      simp only at hlook
      simp only [List.map_cons, List.nodup_cons] at hnd
      have hnamepre : name ∉ pre.map Prod.fst := hpre (name, r) (List.mem_cons_self _ _)
      have hprerest : ∀ q ∈ rest, q.1 ∉ pre.map Prod.fst :=
        fun q hq => hpre q (List.mem_cons_of_mem _ hq)
      by_cases h1 : d + 1 < r
      · have hset : ∀ v : Nat,
            idxSet (pre ++ (name, d) :: toAssoc rest dt) name v =
              pre ++ (name, v) :: toAssoc rest dt := by
          intro v
          rw [idxSet_append_of_not_mem _ _ _ _ hnamepre]
          simp [idxSet]
        by_cases h2 : name = throughputAxis
        · subst h2
          simp [increment_test_index, incModel, toAssoc, hlook, h1, hset]
        · simp [increment_test_index, incModel, toAssoc, hlook, h1, h2, hset]
      · have hset0 : idxSet (pre ++ (name, d) :: toAssoc rest dt) name 0 =
            pre ++ (name, 0) :: toAssoc rest dt := by
          rw [idxSet_append_of_not_mem _ _ _ _ hnamepre]
          simp [idxSet]
        have hpre' : ∀ q ∈ rest, q.1 ∉ (pre ++ [(name, 0)]).map Prod.fst := by
          intro q hq
          simp only [List.map_append, List.map_cons, List.map_nil, List.mem_append,
            List.mem_singleton]
          push_neg
          refine ⟨hprerest q hq, ?_⟩
          intro he
          exact hnd.1 (he ▸ List.mem_map_of_mem Prod.fst hq)
        have ihh := ih dt (pre ++ [(name, 0)]) evIndex curSeries g htail hnd.2 hpre'
        simp only [List.append_assoc, List.singleton_append] at ihh
        cases hm : incModel rest dt curSeries g with
        | error e =>
          rw [hm] at ihh
          by_cases h2 : name = throughputAxis
          · subst h2
            simp [increment_test_index, incModel, toAssoc, hlook, h1, hset0, ihh, hm]
          · simp [increment_test_index, incModel, toAssoc, hlook, h1, h2, hset0, ihh, hm]
        | ok x =>
          obtain ⟨ds', s', g'⟩ := x
          rw [hm] at ihh
          by_cases h2 : name = throughputAxis
          · subst h2
            simp [increment_test_index, incModel, toAssoc, hlook, h1, hset0, ihh, hm,
              List.append_assoc]
          · simp [increment_test_index, incModel, toAssoc, hlook, h1, h2, hset0, ihh, hm,
              List.append_assoc]

/-! ### Mixed-radix behaviour of the digit model -/

theorem incModel_spec :
    ∀ (suffix : List (String × Nat)) (ds : List Nat) (s g : Nat),
    List.Forall₂ (· < ·) ds (suffix.map Prod.snd) →
    (radixVal (suffix.map Prod.snd) ds + 1 = (suffix.map Prod.snd).prod →
      incModel suffix ds s g = .error .overflow) ∧
    (radixVal (suffix.map Prod.snd) ds + 1 < (suffix.map Prod.snd).prod →
      ∃ ds' s' g', incModel suffix ds s g = .ok (ds', s', g') ∧
        List.Forall₂ (· < ·) ds' (suffix.map Prod.snd) ∧
        radixVal (suffix.map Prod.snd) ds' = radixVal (suffix.map Prod.snd) ds + 1) := by
  intro suffix
  induction suffix with
  | nil =>
    intro ds s g hb
    cases hb
    refine ⟨fun _ => rfl, fun h => ?_⟩
    simp [radixVal] at h
  | cons p rest ih =>
    obtain ⟨name, r⟩ := p
    intro ds s g hb
    cases hb with
    | cons hd htail =>
      rename_i d dt
      have hv := radixVal_lt _ _ htail
      have hrpos : 0 < r := Nat.lt_of_le_of_lt (Nat.zero_le d) hd
      simp only [List.map_cons, radixVal, List.prod_cons]
      by_cases h1 : d + 1 < r
      · constructor
        · intro heq
          have h2 : r * (radixVal (rest.map Prod.snd) dt + 1) ≤ r * (rest.map Prod.snd).prod :=
            Nat.mul_le_mul_left r (Nat.succ_le_of_lt hv)
          have h3 : r * (radixVal (rest.map Prod.snd) dt + 1) =
              r * radixVal (rest.map Prod.snd) dt + r := by ring
          omega
        · intro _
          by_cases h2 : name = throughputAxis
          · exact ⟨(d + 1) :: dt, s, g, by simp [incModel, h1, h2],
              List.Forall₂.cons h1 htail, by simp [radixVal]; omega⟩
          · exact ⟨(d + 1) :: dt, g, g + 1, by simp [incModel, h1, h2],
              List.Forall₂.cons h1 htail, by simp [radixVal]; omega⟩
      · have hdr : d + 1 = r := by omega
        have hsplit : d + r * radixVal (rest.map Prod.snd) dt + 1 =
            r * (radixVal (rest.map Prod.snd) dt + 1) := by
          rw [← hdr]; ring
        obtain ⟨iha, ihb⟩ := ih dt s g htail
        constructor
        · intro heq
          rw [hsplit] at heq
          have hveq : radixVal (rest.map Prod.snd) dt + 1 = (rest.map Prod.snd).prod :=
            Nat.eq_of_mul_eq_mul_left hrpos heq
          have := iha hveq
          by_cases h2 : name = throughputAxis
          · simp [incModel, h1, h2, this]
          · simp [incModel, h1, h2, this]
        · intro hlt
          rw [hsplit] at hlt
          have hvlt : radixVal (rest.map Prod.snd) dt + 1 < (rest.map Prod.snd).prod :=
            Nat.lt_of_mul_lt_mul_left hlt
          obtain ⟨ds'', s'', g'', hok, hb'', hval''⟩ := ihb hvlt
          by_cases h2 : name = throughputAxis
          · exact ⟨0 :: ds'', g'', g'' + 1, by simp [incModel, h1, h2, hok],
              List.Forall₂.cons hrpos hb'', by simp [radixVal, hval'', hsplit]⟩
          · exact ⟨0 :: ds'', s'', g'', by simp [incModel, h1, h2, hok],
              List.Forall₂.cons hrpos hb'', by simp [radixVal, hval'', hsplit]⟩

/-! ### Series-id behaviour of the digit model -/

theorem firstNonSat_mem (suffix : List (String × Nat)) :
    ∀ (ds : List Nat) (n : String),
    firstNonSat suffix ds = some n → n ∈ suffix.map Prod.fst := by
  induction suffix with
  | nil => intro ds n h; simp [firstNonSat] at h
  | cons p rest ih =>
    obtain ⟨name, r⟩ := p
    intro ds n h
    cases ds with
    | nil => simp [firstNonSat] at h
    | cons d dt =>
      simp only [firstNonSat] at h
      by_cases h1 : d + 1 < r
      · simp only [h1, if_true] at h
        simp only [Option.some.injEq] at h
        simp [h]
      · simp only [h1, if_false] at h
        exact List.mem_cons_of_mem _ (ih dt n h)

theorem incModel_series :
    ∀ (suffix : List (String × Nat)) (ds : List Nat) (s g ds' s' g' : _),
    (suffix.map Prod.fst).Nodup →
    incModel suffix ds s g = .ok (ds', s', g') →
    (firstNonSat suffix ds = some throughputAxis ∧ s' = s ∧ g' = g) ∨
    ((firstNonSat suffix ds = some throughputAxis → False) ∧ g ≤ s' ∧ s' < g') := by
  intro suffix
  induction suffix with
  | nil => intro ds s g ds' s' g' _ h; simp [incModel] at h
  | cons p rest ih =>
    obtain ⟨name, r⟩ := p
    intro ds s g ds' s' g' hnd h
    simp only [List.map_cons, List.nodup_cons] at hnd
    cases ds with
    | nil => simp [incModel] at h
    | cons d dt =>
      by_cases h1 : d + 1 < r
      · by_cases h2 : name = throughputAxis
        · simp only [incModel, h1, if_true, h2, if_pos, Except.ok.injEq, Prod.mk.injEq] at h
          left
          refine ⟨by simp [firstNonSat, h1, h2], h.2.1.symm, h.2.2.symm⟩
        · simp only [incModel, h1, if_true, h2, if_false, Except.ok.injEq, Prod.mk.injEq] at h
          right
          refine ⟨?_, by omega, by omega⟩
          intro hc
          simp only [firstNonSat, h1, if_true, Option.some.injEq] at hc
          exact h2 hc
      · have hfns : firstNonSat ((name, r) :: rest) (d :: dt) = firstNonSat rest dt := by
          simp [firstNonSat, h1]
        cases hm : incModel rest dt s g with
        | error e =>
          by_cases h2 : name = throughputAxis <;>
            simp [incModel, h1, h2, hm] at h
        | ok x =>
          obtain ⟨ds'', s'', g''⟩ := x
          have ihx := ih dt s g ds'' s'' g'' hnd.2 hm
          by_cases h2 : name = throughputAxis
          · simp only [incModel, h1, if_false, h2, if_pos, hm, Except.ok.injEq,
              Prod.mk.injEq] at h
            right
            have hnotthr : firstNonSat rest dt = some throughputAxis → False := by
              intro hc
              have := firstNonSat_mem rest dt throughputAxis hc
              exact hnd.1 (h2 ▸ this)
            refine ⟨by rw [hfns]; exact hnotthr, ?_, ?_⟩
            · rcases ihx with ⟨_, _, hg⟩ | ⟨_, hgs, hsg⟩
              · omega
              · omega
            · omega
          · simp only [incModel, h1, if_false, h2, if_neg, hm, Except.ok.injEq,
              Prod.mk.injEq] at h
            rcases ihx with ⟨hfirst, hs, hg⟩ | ⟨hfirst, hgs, hsg⟩
            · left
              refine ⟨by rw [hfns]; exact hfirst, ?_, ?_⟩ <;> omega
            · right
              refine ⟨by rw [hfns]; exact hfirst, ?_, ?_⟩ <;> omega

/-! ### Reading digits from the event equals reading them from the threaded index -/

theorem increment_eq_from_spec_general :
    ∀ (suffix : List (String × Nat)) (evIndex idx : Index) (curSeries g : Nat),
    (suffix.map Prod.fst).Nodup →
    (∀ p ∈ suffix, lookupIdx idx p.1 = lookupIdx evIndex p.1) →
    increment_test_index suffix evIndex curSeries idx g =
      increment_test_index_from_spec suffix curSeries idx g := by
  intro suffix
  induction suffix with
  | nil => intro _ _ _ _ _ _; rfl
  | cons p rest ih =>
    obtain ⟨name, r⟩ := p
    intro evIndex idx curSeries g hnd hag
    simp only [List.map_cons, List.nodup_cons] at hnd
    have hhead : lookupIdx idx name = lookupIdx evIndex name :=
      hag (name, r) (List.mem_cons_self _ _)
    cases hl : lookupIdx evIndex name with
    | none =>
      simp [increment_test_index, increment_test_index_from_spec, hl, hhead.trans hl]
    | some value =>
      have hag' : ∀ q ∈ rest, lookupIdx (idxSet idx name 0) q.1 = lookupIdx evIndex q.1 := by
        intro q hq
        have hne : name ≠ q.1 := by
          intro he
          exact hnd.1 (he ▸ List.mem_map_of_mem Prod.fst hq)
        rw [lookupIdx_idxSet_ne _ _ _ _ hne]
        exact hag q (List.mem_cons_of_mem _ hq)
      have ihh := ih evIndex (idxSet idx name 0) curSeries g hnd.2 hag'
      have hl' : lookupIdx idx name = some value := hhead.trans hl
      by_cases h1 : value + 1 < r
      · by_cases h2 : name = throughputAxis
        · subst h2
          simp [increment_test_index, increment_test_index_from_spec, hl, hl', h1]
        · simp [increment_test_index, increment_test_index_from_spec, hl, hl', h1, h2]
      · by_cases h2 : name = throughputAxis
        · subst h2
          simp [increment_test_index, increment_test_index_from_spec, hl, hl', h1, ihh]
        · simp [increment_test_index, increment_test_index_from_spec, hl, hl', h1, h2, ihh]

/-! ### Bounds preservation (index invariant) -/

theorem increment_preserves_bounds :
    ∀ (suffix : List (String × Nat)) (evIndex idx : Index) (curSeries g : Nat)
      (idx' : Index) (s' g' : Nat),
    (suffix.map Prod.fst).Nodup →
    (∀ p ∈ suffix, ∃ v, lookupIdx evIndex p.1 = some v ∧ v < p.2) →
    (∀ p ∈ suffix, ∃ v, lookupIdx idx p.1 = some v ∧ v < p.2) →
    increment_test_index suffix evIndex curSeries idx g = .ok (idx', s', g') →
    (∀ p ∈ suffix, ∃ v, lookupIdx idx' p.1 = some v ∧ v < p.2) ∧
    (∀ n, n ∉ suffix.map Prod.fst → lookupIdx idx' n = lookupIdx idx n) := by
  intro suffix
  induction suffix with
  | nil =>
    intro evIndex idx curSeries g idx' s' g' _ _ _ h
    simp [increment_test_index] at h
  | cons p rest ih =>
    obtain ⟨name, r⟩ := p
    intro evIndex idx curSeries g idx' s' g' hnd hev hidx h
    simp only [List.map_cons, List.nodup_cons] at hnd
    obtain ⟨v, hv, hvr⟩ := hev (name, r) (List.mem_cons_self _ _)
    simp only at hv
    have hevr : ∀ q ∈ rest, ∃ w, lookupIdx evIndex q.1 = some w ∧ w < q.2 :=
      fun q hq => hev q (List.mem_cons_of_mem _ hq)
    have hrpos : 0 < r := Nat.lt_of_le_of_lt (Nat.zero_le v) hvr
    by_cases h1 : v + 1 < r
    · have hidx' : idx' = idxSet idx name (v + 1) := by
        by_cases h2 : name = throughputAxis
        · subst h2
          simp only [increment_test_index, hv, h1, if_true, if_pos,
            Except.ok.injEq, Prod.mk.injEq] at h
          exact h.1.symm
        · simp only [increment_test_index, hv, h1, if_true, h2, if_false,
            Except.ok.injEq, Prod.mk.injEq] at h
          exact h.1.symm
      subst hidx'
      constructor
      · intro q hq
        rcases List.mem_cons.1 hq with rfl | hq'
        · exact ⟨v + 1, lookupIdx_idxSet_self _ _ _, h1⟩
        · have hne : name ≠ q.1 := by
            intro he
            exact hnd.1 (he ▸ List.mem_map_of_mem Prod.fst hq')
          obtain ⟨w, hw, hwq⟩ := hidx q (List.mem_cons_of_mem _ hq')
          exact ⟨w, (lookupIdx_idxSet_ne _ _ _ _ hne).trans hw, hwq⟩
      · intro n hn
        simp only [List.map_cons, List.mem_cons] at hn
        push_neg at hn
        exact lookupIdx_idxSet_ne _ _ _ _ (Ne.symm hn.1)
    · have hidxr : ∀ q ∈ rest, ∃ w, lookupIdx (idxSet idx name 0) q.1 = some w ∧ w < q.2 := by
        intro q hq
        have hne : name ≠ q.1 := by
          intro he
          exact hnd.1 (he ▸ List.mem_map_of_mem Prod.fst hq)
        obtain ⟨w, hw, hwq⟩ := hidx q (List.mem_cons_of_mem _ hq)
        exact ⟨w, (lookupIdx_idxSet_ne _ _ _ _ hne).trans hw, hwq⟩
      have hrec : increment_test_index rest evIndex curSeries (idxSet idx name 0) g =
          .ok (idx', s', g') ∨
          (∃ s'' , increment_test_index rest evIndex curSeries (idxSet idx name 0) g =
            .ok (idx', s'', g' - 1)) := by
        by_cases h2 : name = throughputAxis
        · subst h2
          simp only [increment_test_index, hv, h1, if_false, if_pos] at h
          cases hr : increment_test_index rest evIndex curSeries
              (idxSet idx throughputAxis 0) g with
          | error e => rw [hr] at h; cases h
          | ok x =>
            obtain ⟨i'', s'', g''⟩ := x
            rw [hr] at h
            simp only [Except.ok.injEq, Prod.mk.injEq] at h
            obtain ⟨hi, hs, hg⟩ := h
            right
            refine ⟨s'', ?_⟩
            rw [hi]
            have hg' : g' - 1 = g'' := by omega
            rw [hg']
        · simp only [increment_test_index, hv, h1, if_false, h2] at h
          left
          exact h
      have hmain : ∀ (sx gx : Nat),
          increment_test_index rest evIndex curSeries (idxSet idx name 0) g =
            .ok (idx', sx, gx) →
          (∀ q ∈ ((name, r) :: rest), ∃ w, lookupIdx idx' q.1 = some w ∧ w < q.2) ∧
          (∀ n, n ∉ ((name, r) :: rest).map Prod.fst → lookupIdx idx' n = lookupIdx idx n) := by
        intro sx gx hr
        obtain ⟨hbnds, hunch⟩ := ih evIndex (idxSet idx name 0) curSeries g idx' sx gx
          hnd.2 hevr hidxr hr
        constructor
        · intro q hq
          rcases List.mem_cons.1 hq with rfl | hq'
          · refine ⟨0, ?_, hrpos⟩
            rw [hunch name hnd.1]
            exact lookupIdx_idxSet_self _ _ _
          · exact hbnds q hq'
        · intro n hn
          simp only [List.map_cons, List.mem_cons] at hn
          push_neg at hn
          rw [hunch n hn.2]
          exact lookupIdx_idxSet_ne _ _ _ _ (Ne.symm hn.1)
      rcases hrec with hr | ⟨s'', hr⟩
      · exact hmain s' g' hr
      · exact hmain s'' (g' - 1) hr

theorem skip_preserves_bounds (axes : List (String × Nat)) (index : Index) (g : Nat)
    (idx' : Index) (s' g' : Nat)
    (hnd : (axes.map Prod.fst).Nodup)
    (hb : ∀ p ∈ axes, ∃ v, lookupIdx index p.1 = some v ∧ v < p.2)
    (h : skip_remaining_throughput axes index g = .ok (idx', s', g')) :
    ∀ p ∈ axes, ∃ v, lookupIdx idx' p.1 = some v ∧ v < p.2 := by
  cases hcg : lookupIdx axes "consumer_groups" with
  | none => simp [skip_remaining_throughput, hcg] at h
  | some cgLen =>
    by_cases hlt : (lookupIdx index "consumer_groups").getD 0 + 1 < cgLen
    · simp only [skip_remaining_throughput, hcg, hlt, if_true, Except.ok.injEq,
        Prod.mk.injEq] at h
      obtain ⟨hidx', _, _⟩ := h
      subst hidx'
      intro p hp
      by_cases hp1 : p.1 = "consumer_groups"
      · have hlook : lookupIdx axes p.1 = some p.2 := lookupIdx_of_mem_nodup axes p hnd hp
        rw [hp1] at hlook
        rw [hlook] at hcg
        have hp2 : p.2 = cgLen := by injection hcg
        refine ⟨(lookupIdx index "consumer_groups").getD 0 + 1, ?_, hp2 ▸ hlt⟩
        rw [hp1]
        exact lookupIdx_idxSet_self _ _ _
      · have hne : "consumer_groups" ≠ p.1 := Ne.symm hp1
        obtain ⟨v, hv, hvp⟩ := hb p hp
        by_cases hp2 : p.1 = throughputAxis
        · refine ⟨0, ?_, Nat.lt_of_le_of_lt (Nat.zero_le v) hvp⟩
          rw [lookupIdx_idxSet_ne _ _ _ _ hne, hp2]
          exact lookupIdx_idxSet_self _ _ _
        · refine ⟨v, ?_, hvp⟩
          rw [lookupIdx_idxSet_ne _ _ _ _ hne,
            lookupIdx_idxSet_ne _ _ _ _ (Ne.symm hp2), hv]
    · simp [skip_remaining_throughput, hcg, hlt] at h

/-! ### Canonical-index corollary of the digit-model equivalence -/

theorem increment_canonical (axes : List (String × Nat)) (ds : List Nat)
    (curSeries g : Nat)
    (hnd : (axes.map Prod.fst).Nodup) (hlen : ds.length = axes.length) :
    increment_test_index axes (toAssoc axes ds) curSeries (toAssoc axes ds) g =
      match incModel axes ds curSeries g with
      | .ok x => .ok (toAssoc axes x.1, x.2)
      | .error e => .error e := by
  have hf := toAssoc_lookup_forall₂ axes ds [] hnd hlen (by simp)
  have hmain := increment_eq_incModel axes ds [] (toAssoc axes ds) curSeries g
    (by simpa using hf) hnd (by simp)
  simpa using hmain

/-- Python floor division of `-1` by a positive integer is `-1`. -/
theorem neg_one_fdiv (b : Int) (hb : 0 < b) : Int.fdiv (-1) b = -1 := by
  match b, hb with
  | Int.ofNat (n + 1), _ =>
    show Int.negSucc (0 / (n + 1)) = -1
    simp


/-! ### Trajectory of the sweep -/

theorem sweepCall_traj (axes : List (String × Nat))
    (hnd : (axes.map Prod.fst).Nodup)
    (hpos : ∀ p ∈ axes, 0 < p.2) :
    ∀ k, k < (axes.map Prod.snd).prod →
      ∃ tid sid g, sweepCall axes k = .ok (.next (indexOfNat axes k) tid sid, g) := by
  have hposr : ∀ r ∈ axes.map Prod.snd, 0 < r := by
    intro r hr
    obtain ⟨p, hp, rfl⟩ := List.mem_map.1 hr
    exact hpos p hp
  intro k
  induction k with
  | zero =>
    intro _
    refine ⟨0, 1, 2, ?_⟩
    simp [sweepCall, increment_index_and_update_parameters, indexOfNat_zero]
  | succ k ih =>
    intro hk1
    obtain ⟨tid, sid, g, hcall⟩ := ih (Nat.lt_of_succ_lt hk1)
    have hb := natToDigits_bounded (axes.map Prod.snd) k hposr
    have hlen : (natToDigits (axes.map Prod.snd) k).length = axes.length := by
      rw [natToDigits_length, List.length_map]
    have hval := natToDigits_val (axes.map Prod.snd) k (Nat.lt_of_succ_lt hk1)
    obtain ⟨_, hok⟩ := incModel_spec axes (natToDigits (axes.map Prod.snd) k) sid g hb
    obtain ⟨ds', s', g', hm, hb', hval'⟩ := hok (by omega)
    have hds' : ds' = natToDigits (axes.map Prod.snd) (k + 1) := by
      apply radixVal_inj _ _ _ hb' (natToDigits_bounded _ _ hposr)
      rw [hval', hval, natToDigits_val _ _ hk1]
    have hcan := increment_canonical axes (natToDigits (axes.map Prod.snd) k) sid g hnd hlen
    rw [hm] at hcan
    refine ⟨tid, s', g', ?_⟩
    show (match sweepCall axes k with
      | .ok (.next idx tid sid, g) =>
        increment_index_and_update_parameters ⟨axes, none, some ⟨idx, tid, sid, 0⟩, none⟩ g
      | r => r) = _
    rw [hcall]
    simp only [increment_index_and_update_parameters]
    rw [indexOfNat_eq_toAssoc, hcan]
    simp [wrapAdvance, hds', indexOfNat_eq_toAssoc]

theorem sweepCall_exhausts (axes : List (String × Nat))
    (hnd : (axes.map Prod.fst).Nodup)
    (hpos : ∀ p ∈ axes, 0 < p.2) :
    ∃ g, sweepCall axes ((axes.map Prod.snd).prod) = .ok (.terminal, g) := by
  have hposr : ∀ r ∈ axes.map Prod.snd, 0 < r := by
    intro r hr
    obtain ⟨p, hp, rfl⟩ := List.mem_map.1 hr
    exact hpos p hp
  have hN : 0 < (axes.map Prod.snd).prod := List.prod_pos hposr
  obtain ⟨N, hNe⟩ : ∃ N, (axes.map Prod.snd).prod = N + 1 :=
    ⟨(axes.map Prod.snd).prod - 1, by omega⟩
  obtain ⟨tid, sid, g, hcall⟩ := sweepCall_traj axes hnd hpos N (by omega)
  have hb := natToDigits_bounded (axes.map Prod.snd) N hposr
  have hlen : (natToDigits (axes.map Prod.snd) N).length = axes.length := by
    rw [natToDigits_length, List.length_map]
  have hval := natToDigits_val (axes.map Prod.snd) N (by omega)
  obtain ⟨hexh, _⟩ := incModel_spec axes (natToDigits (axes.map Prod.snd) N) sid g hb
  have hm := hexh (by omega)
  have hcan := increment_canonical axes (natToDigits (axes.map Prod.snd) N) sid g hnd hlen
  rw [hm] at hcan
  refine ⟨g, ?_⟩
  rw [hNe]
  show (match sweepCall axes N with
    | .ok (.next idx tid sid, g) =>
      increment_index_and_update_parameters ⟨axes, none, some ⟨idx, tid, sid, 0⟩, none⟩ g
    | r => r) = _
  rw [hcall]
  simp only [increment_index_and_update_parameters]
  rw [indexOfNat_eq_toAssoc, hcan]
  simp [wrapAdvance]


/-! ### Claim theorems -/

/-- C7 (counterexample): the claim says the depletion resource name recomputed
by the depletion transform is sanitized before being returned; on the concrete
event `deplEventWithBadId` (whose `test_id` renders with a space) the returned
name differs from its sanitized form, so no sanitization was applied. -/
theorem C7_depletion_name_not_sanitized :
    (update_parameters_for_depletion deplEventWithBadId).2.depletion_topic_name ≠
      sanitizeName ((update_parameters_for_depletion deplEventWithBadId).2.depletion_topic_name) := by
  decide

/-- C7 (amended): the depletion resource name recomputed by the depletion
transform, `test-<testId>-series-<seriesId>-depl`, is returned raw, without the
sanitization rule of the primary resolver applied to it. -/
theorem C7_depletion_name_raw (ev : DeplEvent) :
    (update_parameters_for_depletion ev).2.depletion_topic_name =
      "test-" ++ ev.params.test_id ++ "-series-" ++ ev.params.throughput_series_id ++ "-depl" :=
  rfl

/-- C8: for every event with a current test and a depletion configuration, the
depletion transform sets `duration_sec` to `approximate_timeout_hours * 3600`,
`records_per_sec = -1`, `num_records_producer = 2147483647`,
`num_records_consumer = 0`, `num_jobs = num_producers`, recomputes the
depletion topic name, and carries the index, the identifiers and every other
parameter field through unchanged. -/
theorem C8_depletion_frame (ev : DeplEvent) :
    (update_parameters_for_depletion ev).1 = ev.index ∧
    (update_parameters_for_depletion ev).2.duration_sec =
      ev.approximate_timeout_hours * 3600 ∧
    (update_parameters_for_depletion ev).2.records_per_sec = -1 ∧
    (update_parameters_for_depletion ev).2.num_records_producer = 2147483647 ∧
    (update_parameters_for_depletion ev).2.num_records_consumer = 0 ∧
    (update_parameters_for_depletion ev).2.num_jobs = ev.params.num_producers ∧
    (update_parameters_for_depletion ev).2.depletion_topic_name =
      "test-" ++ ev.params.test_id ++ "-series-" ++ ev.params.throughput_series_id ++ "-depl" ∧
    (update_parameters_for_depletion ev).2.test_id = ev.params.test_id ∧
    (update_parameters_for_depletion ev).2.throughput_series_id =
      ev.params.throughput_series_id ∧
    (update_parameters_for_depletion ev).2.replication_factor =
      ev.params.replication_factor ∧
    (update_parameters_for_depletion ev).2.topic_name = ev.params.topic_name ∧
    (update_parameters_for_depletion ev).2.record_size_byte = ev.params.record_size_byte ∧
    (update_parameters_for_depletion ev).2.num_partitions = ev.params.num_partitions ∧
    (update_parameters_for_depletion ev).2.producer_throughput =
      ev.params.producer_throughput ∧
    (update_parameters_for_depletion ev).2.num_producers = ev.params.num_producers ∧
    (update_parameters_for_depletion ev).2.num_consumer_groups =
      ev.params.num_consumer_groups ∧
    (update_parameters_for_depletion ev).2.size_consumer_group =
      ev.params.size_consumer_group ∧
    (update_parameters_for_depletion ev).2.producer_props = ev.params.producer_props ∧
    (update_parameters_for_depletion ev).2.consumer_props = ev.params.consumer_props ∧
    (update_parameters_for_depletion ev).2.cluster_throughput_mb_per_sec =
      ev.params.cluster_throughput_mb_per_sec := by
  refine ⟨rfl, ?_, rfl, rfl, rfl, rfl, rfl, rfl, rfl, rfl, rfl, rfl, rfl, rfl, rfl,
    rfl, rfl, rfl, rfl, rfl⟩
  show ev.approximate_timeout_hours * 60 * 60 = ev.approximate_timeout_hours * 3600
  ring

/-- C10: entered at cursor position 0 with its threaded index equal to the
event index, `increment_test_index` (which reads each digit from the event's
`current_test.index`) computes the same result as the specified algorithm that
reads each digit from the threaded index. -/
theorem C10_digit_source_equivalence (axes : List (String × Nat)) (evIndex : Index)
    (curSeries g : Nat) (hnd : (axes.map Prod.fst).Nodup) :
    increment_test_index axes evIndex curSeries evIndex g =
      increment_test_index_from_spec axes curSeries evIndex g :=
  increment_eq_from_spec_general axes evIndex evIndex curSeries g hnd (fun _ _ => rfl)

/-- Closed instance of C10 at a concrete two-axis specification. -/
theorem C10_digit_source_equivalence_witness :
    (([("cluster_throughput_mb_per_sec", 2), ("num_producers", 3)] :
        List (String × Nat)).map Prod.fst).Nodup ∧
    increment_test_index [("cluster_throughput_mb_per_sec", 2), ("num_producers", 3)]
        [("cluster_throughput_mb_per_sec", 1), ("num_producers", 0)] 7
        [("cluster_throughput_mb_per_sec", 1), ("num_producers", 0)] 100 =
      increment_test_index_from_spec [("cluster_throughput_mb_per_sec", 2), ("num_producers", 3)]
        7 [("cluster_throughput_mb_per_sec", 1), ("num_producers", 0)] 100 :=
  ⟨by decide, C10_digit_source_equivalence
    [("cluster_throughput_mb_per_sec", 2), ("num_producers", 3)]
    [("cluster_throughput_mb_per_sec", 1), ("num_producers", 0)] 7 100 (by decide)⟩


/-- C4: when a further consumer-group option exists (`cg + 1 < cgLen`, `cg`
defaulting to 0 when the key is absent), the skip-ahead rule returns a copy of
the index with the throughput axis set to 0 and the consumer-group axis set to
`cg + 1`, paired with a freshly drawn series id, every other axis position
untouched; otherwise it fails with the exhaustion error. -/
theorem C4_skip_ahead (axes : List (String × Nat)) (index : Index) (g cgLen cg : Nat)
    (hax : lookupIdx axes "consumer_groups" = some cgLen)
    (hcg : (lookupIdx index "consumer_groups").getD 0 = cg) :
    (cg + 1 < cgLen →
      skip_remaining_throughput axes index g =
        .ok (idxSet (idxSet index throughputAxis 0) "consumer_groups" (cg + 1), g, g + 1) ∧
      lookupIdx (idxSet (idxSet index throughputAxis 0) "consumer_groups" (cg + 1))
        throughputAxis = some 0 ∧
      lookupIdx (idxSet (idxSet index throughputAxis 0) "consumer_groups" (cg + 1))
        "consumer_groups" = some (cg + 1) ∧
      (∀ n, n ≠ throughputAxis → n ≠ "consumer_groups" →
        lookupIdx (idxSet (idxSet index throughputAxis 0) "consumer_groups" (cg + 1)) n =
          lookupIdx index n)) ∧
    (¬(cg + 1 < cgLen) → skip_remaining_throughput axes index g = .error .overflow) := by
  constructor
  · intro hlt
    refine ⟨?_, ?_, lookupIdx_idxSet_self _ _ _, ?_⟩
    · simp [skip_remaining_throughput, hax, hcg, hlt]
    · rw [lookupIdx_idxSet_ne _ _ _ _ (by decide)]
      exact lookupIdx_idxSet_self _ _ _
    · intro n hn1 hn2
      rw [lookupIdx_idxSet_ne _ _ _ _ (Ne.symm hn2), lookupIdx_idxSet_ne _ _ _ _ (Ne.symm hn1)]
  · intro hge
    simp [skip_remaining_throughput, hax, hcg, hge]

/-- Closed instance of C4: the concrete example of the specification, plus the
exhausted case with the last consumer-group option already selected. -/
theorem C4_skip_ahead_witness :
    lookupIdx [(("consumer_groups" : String), 2)] "consumer_groups" = some 2 ∧
    (lookupIdx [(("consumer_groups" : String), 0), ("cluster_throughput_mb_per_sec", 3),
      ("num_producers", 1)] "consumer_groups").getD 0 = 0 ∧
    skip_remaining_throughput [("consumer_groups", 2)]
        [("consumer_groups", 0), ("cluster_throughput_mb_per_sec", 3), ("num_producers", 1)] 9 =
      .ok (idxSet (idxSet [("consumer_groups", 0), ("cluster_throughput_mb_per_sec", 3),
        ("num_producers", 1)] throughputAxis 0) "consumer_groups" 1, 9, 10) ∧
    skip_remaining_throughput [("consumer_groups", 2)]
        [("consumer_groups", 1), ("cluster_throughput_mb_per_sec", 3), ("num_producers", 1)] 9 =
      .error .overflow :=
  ⟨by decide, by decide,
    ((C4_skip_ahead [("consumer_groups", 2)]
      [("consumer_groups", 0), ("cluster_throughput_mb_per_sec", 3), ("num_producers", 1)]
      9 2 0 (by decide) (by decide)).1 (by decide)).1,
    (C4_skip_ahead [("consumer_groups", 2)]
      [("consumer_groups", 1), ("cluster_throughput_mb_per_sec", 3), ("num_producers", 1)]
      9 2 1 (by decide) (by decide)).2 (by decide)⟩

/-- C5: resolver throughput arithmetic.  With positive producer count and
record size: in the limited branch the producer byte rate is
`floor(throughput*1024*1024 / num_producers)`, the consumer byte rate is
`floor(throughput*1024*1024 / group_size)` for positive group size and 0
otherwise, and each record count is `floor(rate * duration / record_size)`;
in the unlimited branch (`throughput = 0`) the producer rate is `-1` and both
record counts are `2147483647`; in both branches
`records_per_sec = max 1 (producer_rate fdiv record_size)`, which in the
unlimited branch is exactly 1. -/
theorem C5_resolver_arithmetic (spec : ResolvedNums) (tid sid : String)
    (hnp : 0 < spec.num_producers) (hrs : 0 < spec.record_size_byte) :
    (0 < spec.cluster_throughput_mb_per_sec →
      (update_parameters spec tid sid).producer_throughput =
        (spec.cluster_throughput_mb_per_sec * 1024 * 1024).fdiv spec.num_producers ∧
      (update_parameters spec tid sid).num_records_producer =
        (((spec.cluster_throughput_mb_per_sec * 1024 * 1024).fdiv spec.num_producers) *
          spec.duration_sec).fdiv spec.record_size_byte ∧
      (update_parameters spec tid sid).num_records_consumer =
        ((if 0 < spec.cg_size then
            (spec.cluster_throughput_mb_per_sec * 1024 * 1024).fdiv spec.cg_size
          else 0) * spec.duration_sec).fdiv spec.record_size_byte) ∧
    (spec.cluster_throughput_mb_per_sec = 0 →
      (update_parameters spec tid sid).producer_throughput = -1 ∧
      (update_parameters spec tid sid).num_records_producer = 2147483647 ∧
      (update_parameters spec tid sid).num_records_consumer = 2147483647) ∧
    (update_parameters spec tid sid).records_per_sec =
      max 1 (((update_parameters spec tid sid).producer_throughput).fdiv
        spec.record_size_byte) ∧
    (spec.cluster_throughput_mb_per_sec = 0 →
      (update_parameters spec tid sid).records_per_sec = 1) := by
  refine ⟨?_, ?_, ?_, ?_⟩
  · intro ht
    refine ⟨?_, ?_, ?_⟩ <;>
      simp [update_parameters, ht, gt_iff_lt]
  · intro ht
    have hng : ¬ spec.cluster_throughput_mb_per_sec > 0 := by omega
    refine ⟨?_, ?_, ?_⟩ <;> simp [update_parameters, hng]
  · by_cases ht : spec.cluster_throughput_mb_per_sec > 0
    · simp [update_parameters, ht]
    · simp [update_parameters, ht]
  · intro ht
    have hng : ¬ spec.cluster_throughput_mb_per_sec > 0 := by omega
    simp [update_parameters, hng, neg_one_fdiv _ hrs]

/-- Closed instance of C5 at concrete resolver inputs (both a limited and an
unlimited configuration). -/
theorem C5_resolver_arithmetic_witness :
    (0 : Int) < 5 ∧ (0 : Int) < 1024 ∧
    (update_parameters
      { num_producers := 5, record_size_byte := 1024, cluster_throughput_mb_per_sec := 0,
        duration_sec := 300, num_partitions := 6, replication_factor := 3,
        cg_num_groups := 2, cg_size := 3, producer_props := "acks=all",
        consumer_props := "" } "42" "7").records_per_sec = 1 :=
  ⟨by decide, by decide,
    (C5_resolver_arithmetic
      { num_producers := 5, record_size_byte := 1024, cluster_throughput_mb_per_sec := 0,
        duration_sec := 300, num_partitions := 6, replication_factor := 3,
        cg_num_groups := 2, cg_size := 3, producer_props := "acks=all",
        consumer_props := "" } "42" "7" (by decide) (by decide)).2.2.2 rfl⟩


/-- C6: whenever the index counter or the skip-ahead rule fails with the
exhaustion error, the decision function returns the terminal outcome (the
payload holding only the test specification, with no current test) as a
normal successful result, on each of its three routes. -/
theorem C6_exhaustion_terminal (ev : SweepEvent) (g : Nat) (cur : CurrentTest)
    (hcur : ev.current = some cur) :
    ((ev.skipCond = none ∨ ev.producerResult = none) →
      increment_test_index ev.axes cur.index cur.seriesId cur.index g = .error .overflow →
      increment_index_and_update_parameters ev g = .ok (.terminal, g)) ∧
    (∀ c fb, ev.skipCond = some c → ev.producerResult = some fb →
      evaluate_skip_condition c fb cur.reqThr = 0 →
      increment_test_index ev.axes cur.index cur.seriesId cur.index g = .error .overflow →
      increment_index_and_update_parameters ev g = .ok (.terminal, g)) ∧
    (∀ c fb, ev.skipCond = some c → ev.producerResult = some fb →
      evaluate_skip_condition c fb cur.reqThr ≠ 0 →
      skip_remaining_throughput ev.axes cur.index g = .error .overflow →
      increment_index_and_update_parameters ev g = .ok (.terminal, g)) := by
  refine ⟨?_, ?_, ?_⟩
  · intro hroute hovf
    rcases hroute with hsc | hpr
    · cases hpr : ev.producerResult <;>
        simp [increment_index_and_update_parameters, hcur, hsc, hpr, hovf, wrapAdvance]
    · cases hsc : ev.skipCond <;>
        simp [increment_index_and_update_parameters, hcur, hsc, hpr, hovf, wrapAdvance]
  · intro c fb hsc hpr hz hovf
    simp [increment_index_and_update_parameters, hcur, hsc, hpr, hz, hovf, wrapAdvance]
  · intro c fb hsc hpr hnz hovf
    simp [increment_index_and_update_parameters, hcur, hsc, hpr, hnz, hovf, wrapAdvance]

/-- Closed instance of C6: a single-axis specification whose only digit has
saturated; the decision call returns the terminal outcome. -/
theorem C6_exhaustion_terminal_witness :
    increment_test_index [(("cluster_throughput_mb_per_sec" : String), 1)]
        [("cluster_throughput_mb_per_sec", 0)] 7 [("cluster_throughput_mb_per_sec", 0)] 3 =
      .error .overflow ∧
    increment_index_and_update_parameters
      ⟨[("cluster_throughput_mb_per_sec", 1)], none,
        some ⟨[("cluster_throughput_mb_per_sec", 0)], 5, 7, 0⟩, none⟩ 3 =
      .ok (.terminal, 3) :=
  ⟨by decide,
    (C6_exhaustion_terminal
      ⟨[("cluster_throughput_mb_per_sec", 1)], none,
        some ⟨[("cluster_throughput_mb_per_sec", 0)], 5, 7, 0⟩, none⟩ 3
      ⟨[("cluster_throughput_mb_per_sec", 0)], 5, 7, 0⟩ rfl).1 (Or.inl rfl) (by decide)⟩

/-- C9: for a specification with non-empty candidate sequences and an input
index in bounds on every axis, any index returned by the counter or by the
skip-ahead rule is again in bounds on every axis. -/
theorem C9_bounds_invariant (axes : List (String × Nat)) (index : Index)
    (curSeries g : Nat)
    (hnd : (axes.map Prod.fst).Nodup)
    (hpos : ∀ p ∈ axes, 0 < p.2)
    (hb : ∀ p ∈ axes, ∃ v, lookupIdx index p.1 = some v ∧ v < p.2) :
    (∀ idx' s' g', increment_test_index axes index curSeries index g = .ok (idx', s', g') →
      ∀ p ∈ axes, ∃ v, lookupIdx idx' p.1 = some v ∧ v < p.2) ∧
    (∀ idx' s' g', skip_remaining_throughput axes index g = .ok (idx', s', g') →
      ∀ p ∈ axes, ∃ v, lookupIdx idx' p.1 = some v ∧ v < p.2) := by
  constructor
  · intro idx' s' g' h
    exact (increment_preserves_bounds axes index index curSeries g idx' s' g'
      hnd hb hb h).1
  · intro idx' s' g' h
    exact skip_preserves_bounds axes index g idx' s' g' hnd hb h

/-- Closed instance of C9 on a two-axis specification: both the counter
advance and the skip-ahead transform keep every axis position in bounds. -/
theorem C9_bounds_invariant_witness :
    (∀ idx' s' g',
      increment_test_index [("cluster_throughput_mb_per_sec", 2), ("consumer_groups", 2)]
          [("cluster_throughput_mb_per_sec", 1), ("consumer_groups", 0)] 7
          [("cluster_throughput_mb_per_sec", 1), ("consumer_groups", 0)] 50 =
        .ok (idx', s', g') →
      ∀ p ∈ ([("cluster_throughput_mb_per_sec", 2), ("consumer_groups", 2)] :
          List (String × Nat)),
        ∃ v, lookupIdx idx' p.1 = some v ∧ v < p.2) ∧
    (∀ idx' s' g',
      skip_remaining_throughput [("cluster_throughput_mb_per_sec", 2), ("consumer_groups", 2)]
          [("cluster_throughput_mb_per_sec", 1), ("consumer_groups", 0)] 50 =
        .ok (idx', s', g') →
      ∀ p ∈ ([("cluster_throughput_mb_per_sec", 2), ("consumer_groups", 2)] :
          List (String × Nat)),
        ∃ v, lookupIdx idx' p.1 = some v ∧ v < p.2) :=
  C9_bounds_invariant [("cluster_throughput_mb_per_sec", 2), ("consumer_groups", 2)]
    [("cluster_throughput_mb_per_sec", 1), ("consumer_groups", 0)] 7 50
    (by decide) (by decide) (by decide)


/-- C3: with both a skip condition in the specification and producer feedback
in the event, the decision function evaluates the condition and routes to the
skip-ahead rule exactly when the evaluation is truthy, performing the ordinary
counter advance from cursor position 0 otherwise; and on the concrete feedback
of the specification (one summary of 50 MB/s against a requested 100 MB/s) the
named metric evaluates to exactly 1/2, which satisfies the condition
less-than 1. -/
theorem C3_skip_routing (ev : SweepEvent) (g : Nat) (cur : CurrentTest)
    (c : SkipCond) (fb : List ℚ)
    (hcur : ev.current = some cur) (hc : ev.skipCond = some c)
    (hfb : ev.producerResult = some fb) :
    (evaluate_skip_condition c fb cur.reqThr ≠ 0 →
      increment_index_and_update_parameters ev g =
        wrapAdvance cur.testId g (skip_remaining_throughput ev.axes cur.index g)) ∧
    (evaluate_skip_condition c fb cur.reqThr = 0 →
      increment_index_and_update_parameters ev g =
        wrapAdvance cur.testId g
          (increment_test_index ev.axes cur.index cur.seriesId cur.index g)) ∧
    evaluate_skip_condition .sentDivRequested [50] 100 = 1 / 2 ∧
    evaluate_skip_condition (.lessThan .sentDivRequested (.lit 1)) [50] 100 = 1 := by
  refine ⟨?_, ?_, ?_, ?_⟩
  · intro hnz
    simp [increment_index_and_update_parameters, hcur, hc, hfb, hnz]
  · intro hz
    simp [increment_index_and_update_parameters, hcur, hc, hfb, hz]
  · norm_num [evaluate_skip_condition]
  · norm_num [evaluate_skip_condition]

/-- Closed instance of C3: a truthy condition routes the decision call to the
skip-ahead rule, a falsy one to the counter advance from position 0. -/
theorem C3_skip_routing_witness :
    increment_index_and_update_parameters
      ⟨[("cluster_throughput_mb_per_sec", 2), ("consumer_groups", 2)], some (.lit 1),
        some ⟨[("cluster_throughput_mb_per_sec", 1), ("consumer_groups", 0)], 5, 7, 100⟩,
        some [50]⟩ 11 =
      wrapAdvance 5 11 (skip_remaining_throughput
        [("cluster_throughput_mb_per_sec", 2), ("consumer_groups", 2)]
        [("cluster_throughput_mb_per_sec", 1), ("consumer_groups", 0)] 11) ∧
    increment_index_and_update_parameters
      ⟨[("cluster_throughput_mb_per_sec", 2), ("consumer_groups", 2)], some (.lit 0),
        some ⟨[("cluster_throughput_mb_per_sec", 1), ("consumer_groups", 0)], 5, 7, 100⟩,
        some [50]⟩ 11 =
      wrapAdvance 5 11 (increment_test_index
        [("cluster_throughput_mb_per_sec", 2), ("consumer_groups", 2)]
        [("cluster_throughput_mb_per_sec", 1), ("consumer_groups", 0)] 7
        [("cluster_throughput_mb_per_sec", 1), ("consumer_groups", 0)] 11) :=
  ⟨(C3_skip_routing
      ⟨[("cluster_throughput_mb_per_sec", 2), ("consumer_groups", 2)], some (.lit 1),
        some ⟨[("cluster_throughput_mb_per_sec", 1), ("consumer_groups", 0)], 5, 7, 100⟩,
        some [50]⟩ 11
      ⟨[("cluster_throughput_mb_per_sec", 1), ("consumer_groups", 0)], 5, 7, 100⟩
      (.lit 1) [50] rfl rfl rfl).1 one_ne_zero,
    (C3_skip_routing
      ⟨[("cluster_throughput_mb_per_sec", 2), ("consumer_groups", 2)], some (.lit 0),
        some ⟨[("cluster_throughput_mb_per_sec", 1), ("consumer_groups", 0)], 5, 7, 100⟩,
        some [50]⟩ 11
      ⟨[("cluster_throughput_mb_per_sec", 1), ("consumer_groups", 0)], 5, 7, 100⟩
      (.lit 0) [50] rfl rfl rfl).2.1 rfl⟩

/-- C2: series-identifier rule of the counter.  (i) an advance that increments
only the throughput digit, without carry, returns the previous series id;
(ii) an advance that increments another axis's digit at the cursor returns the
freshly drawn id, different from the previous one whenever the generator is
ahead of it; (iii) when the throughput digit saturates, the id returned by the
whole advance is a draw made after the recursive carry completes, overriding
whatever the recursion produced; and (iv) on a full advance from position 0 the
returned id equals the previous one exactly when the incremented (first
non-saturated) axis is the throughput axis — every call that increments another
axis, or resets or carries past the throughput axis, returns a fresh id. -/
theorem C2_series_identifier (axes rest : List (String × Nat)) (evIndex : Index)
    (curSeries g : Nat) :
    (∀ r v, lookupIdx evIndex throughputAxis = some v → v + 1 < r →
      increment_test_index ((throughputAxis, r) :: rest) evIndex curSeries evIndex g =
        .ok (idxSet evIndex throughputAxis (v + 1), curSeries, g)) ∧
    (∀ name r v, name ≠ throughputAxis → lookupIdx evIndex name = some v → v + 1 < r →
      increment_test_index ((name, r) :: rest) evIndex curSeries evIndex g =
        .ok (idxSet evIndex name (v + 1), g, g + 1) ∧ (curSeries < g → g ≠ curSeries)) ∧
    (∀ r v idx' s' g', lookupIdx evIndex throughputAxis = some v → ¬(v + 1 < r) →
      increment_test_index rest evIndex curSeries (idxSet evIndex throughputAxis 0) g =
        .ok (idx', s', g') →
      increment_test_index ((throughputAxis, r) :: rest) evIndex curSeries evIndex g =
        .ok (idx', g', g' + 1)) ∧
    (∀ ds idx' s' g', (axes.map Prod.fst).Nodup → ds.length = axes.length →
      curSeries < g →
      increment_test_index axes (toAssoc axes ds) curSeries (toAssoc axes ds) g =
        .ok (idx', s', g') →
      (s' = curSeries ↔ firstNonSat axes ds = some throughputAxis)) := by
  refine ⟨?_, ?_, ?_, ?_⟩
  · intro r v hv h1
    simp [increment_test_index, hv, h1]
  · intro name r v hne hv h1
    refine ⟨by simp [increment_test_index, hv, h1, hne], by omega⟩
  · intro r v idx' s' g' hv h1 hrec
    simp [increment_test_index, hv, h1, hrec]
  · intro ds idx' s' g' hnd hlen hfresh hinc
    have hcan := increment_canonical axes ds curSeries g hnd hlen
    rw [hinc] at hcan
    cases hm : incModel axes ds curSeries g with
    | error e => rw [hm] at hcan; cases hcan
    | ok x =>
      obtain ⟨ds'', s'', g''⟩ := x
      rw [hm] at hcan
      simp only [Except.ok.injEq, Prod.mk.injEq] at hcan
      obtain ⟨_, hs, hg⟩ := hcan
      have hser := incModel_series axes ds curSeries g ds'' s'' g'' hnd hm
      constructor
      · intro hsame
        rcases hser with ⟨hf, _, _⟩ | ⟨_, hge, _⟩
        · exact hf
        · omega
      · intro hf
        rcases hser with ⟨_, hseq, _⟩ | ⟨hnf, _, _⟩
        · omega
        · exact absurd hf hnf

/-- Closed instance of C2 on concrete indices: a pure throughput increment
keeps the series id, an increment of another axis returns the fresh draw, a
saturated throughput digit yields the post-recursion draw, and on a full
two-axis advance the id is preserved exactly when the incremented axis is the
throughput axis. -/
theorem C2_series_identifier_witness :
    (increment_test_index [("cluster_throughput_mb_per_sec", 3)]
        [("cluster_throughput_mb_per_sec", 0)] 7 [("cluster_throughput_mb_per_sec", 0)] 100 =
      .ok (idxSet [("cluster_throughput_mb_per_sec", 0)] throughputAxis 1, 7, 100)) ∧
    (increment_test_index [("num_producers", 3)] [("num_producers", 0)] 7
        [("num_producers", 0)] 100 =
      .ok (idxSet [("num_producers", 0)] "num_producers" 1, 100, 101) ∧
      (7 < 100 → 100 ≠ 7)) ∧
    ((7 : Nat) = 7 ↔
      firstNonSat [("cluster_throughput_mb_per_sec", 2), ("num_producers", 3)] [0, 0] =
        some throughputAxis) :=
  ⟨(C2_series_identifier [] [] [("cluster_throughput_mb_per_sec", 0)] 7 100).1 3 0
      (by decide) (by decide),
    (C2_series_identifier [] [] [("num_producers", 0)] 7 100).2.1 "num_producers" 3 0
      (by decide) (by decide) (by decide),
    (C2_series_identifier [("cluster_throughput_mb_per_sec", 2), ("num_producers", 3)]
      [] [] 7 100).2.2.2 [0, 0]
      (toAssoc [("cluster_throughput_mb_per_sec", 2), ("num_producers", 3)] [1, 0]) 7 100
      (by decide) (by decide) (by decide) (by decide)⟩


/-- C1: full enumeration.  For a specification whose axes all have candidate
sequences of positive length, iterating the decision function from an event
with no current test (and never taking the skip route): the `k`-th call
(`k` from 0) returns the index whose digits are the mixed-radix digits of `k`,
with the first call returning the all-zero index; the call after the last
distinct tuple returns the terminal outcome (the payload holding only the test
specification); distinct `k` below the product of the lengths give distinct
index tuples (each is visited exactly once); and every in-bounds digit tuple
is visited. -/
theorem C1_full_enumeration (axes : List (String × Nat))
    (hnd : (axes.map Prod.fst).Nodup)
    (hpos : ∀ p ∈ axes, 0 < p.2) :
    (∀ k, k < (axes.map Prod.snd).prod →
      ∃ tid sid g, sweepCall axes k = .ok (.next (indexOfNat axes k) tid sid, g)) ∧
    (∃ g, sweepCall axes ((axes.map Prod.snd).prod) = .ok (.terminal, g)) ∧
    indexOfNat axes 0 = axes.map (fun a => (a.1, 0)) ∧
    (∀ j k, j < (axes.map Prod.snd).prod → k < (axes.map Prod.snd).prod →
      indexOfNat axes j = indexOfNat axes k → j = k) ∧
    (∀ ds, List.Forall₂ (· < ·) ds (axes.map Prod.snd) →
      ∃ k, k < (axes.map Prod.snd).prod ∧ indexOfNat axes k = toAssoc axes ds) := by
  have hposr : ∀ r ∈ axes.map Prod.snd, 0 < r := by
    intro r hr
    obtain ⟨p, hp, rfl⟩ := List.mem_map.1 hr
    exact hpos p hp
  refine ⟨sweepCall_traj axes hnd hpos, sweepCall_exhausts axes hnd hpos,
    indexOfNat_zero axes, ?_, ?_⟩
  · intro j k hj hk he
    rw [indexOfNat_eq_toAssoc, indexOfNat_eq_toAssoc] at he
    have hdig := toAssoc_inj axes _ _ (by rw [natToDigits_length, List.length_map])
      (by rw [natToDigits_length, List.length_map]) he
    have hjv := natToDigits_val (axes.map Prod.snd) j hj
    rw [hdig, natToDigits_val (axes.map Prod.snd) k hk] at hjv
    omega
  · intro ds hb
    refine ⟨radixVal (axes.map Prod.snd) ds, radixVal_lt _ _ hb, ?_⟩
    rw [indexOfNat_eq_toAssoc]
    congr 1
    apply radixVal_inj _ _ _ (natToDigits_bounded _ _ hposr) hb
    exact natToDigits_val _ _ (radixVal_lt _ _ hb)

/-- Closed instance of C1 on a concrete two-axis specification with 2 and 3
candidates: six calls return the six index tuples, the seventh returns the
terminal outcome. -/
theorem C1_full_enumeration_witness :
    ((([("cluster_throughput_mb_per_sec", 2), ("num_producers", 3)] :
        List (String × Nat)).map Prod.fst).Nodup ∧
      (∀ p ∈ ([("cluster_throughput_mb_per_sec", 2), ("num_producers", 3)] :
        List (String × Nat)), 0 < p.2)) ∧
    (∀ k, k < (([("cluster_throughput_mb_per_sec", 2), ("num_producers", 3)] :
        List (String × Nat)).map Prod.snd).prod →
      ∃ tid sid g,
        sweepCall [("cluster_throughput_mb_per_sec", 2), ("num_producers", 3)] k =
          .ok (.next (indexOfNat
            [("cluster_throughput_mb_per_sec", 2), ("num_producers", 3)] k) tid sid, g)) ∧
    (∃ g, sweepCall [("cluster_throughput_mb_per_sec", 2), ("num_producers", 3)]
        ((([("cluster_throughput_mb_per_sec", 2), ("num_producers", 3)] :
          List (String × Nat)).map Prod.snd).prod) =
      .ok (.terminal, g)) :=
  ⟨⟨by decide, by decide⟩,
    (C1_full_enumeration [("cluster_throughput_mb_per_sec", 2), ("num_producers", 3)]
      (by decide) (by decide)).1,
    (C1_full_enumeration [("cluster_throughput_mb_per_sec", 2), ("num_producers", 3)]
      (by decide) (by decide)).2.1⟩


end TestParams
